import Mathlib

/-!
Verification of the WebThingsIO intent-parser server
(`intent-parser-server.py`) against its natural-language specification.

The development shallow-embeds the connection-handling and wire-protocol
layer of the server:

* `JVal` models Python values produced by `json.loads` (and the dicts built
  by `parse_legacy_message`).
* `pyContains`, `pyGetItem`, `pyIter` model the Python operations
  `key in v`, `v[key]` and `for x in v`; a `none` result marks an uncaught
  Python exception (`TypeError` / `KeyError`).
* `read_bytes` models `Handler.read_bytes` over the flattened byte stream a
  peer sends before closing the connection; a `none` result marks the case
  where `recv` starts returning empty byte strings forever and the
  `while len(data) < count` loop never terminates.
* `utf8DecodeCp` models strict `bytes.decode()` (CPython UTF-8 validation),
  returning the decoded code points; `none` marks a `UnicodeDecodeError`.
* `train`, `query`, `decodeMessage`, `dispatch`, `handle` translate
  `Handler.train`, `Handler.query` and `Handler.handle`.  The external adapt
  engine is kept opaque: `Engine` records exactly the registrations the
  server performs, and `determine_intent` is an oracle parameter `di`.
* A small interleaving semantics (`Step`) models threads sharing the single
  `engine_lock`, for the concurrency claims.
-/

/-- A JSON value / Python object, as produced by `json.loads`.
`obj` models a dict by its key/value pairs (keys distinct, insertion
order preserved, as in CPython). Numbers are modelled as rationals. -/
inductive JVal where
  | null : JVal
  | bool : Bool → JVal
  | num : ℚ → JVal
  | str : String → JVal
  | arr : List JVal → JVal
  | obj : List (String × JVal) → JVal

/-- An adapt intent schema, as assembled by
`IntentBuilder('Intent').require('Keyword').optionally('Type').require('Location').build()`:
a name, the required entity types (in `require` call order) and the optional
entity types. -/
structure IntentSchema where
  name : String
  required : List String
  optional : List String
deriving DecidableEq

/-- The state the server accumulates in an `IntentDeterminationEngine`:
the `register_entity(value, entity_type)` calls in order, and the intent
schemas passed to the engine's intent-schema registration, in order. -/
structure Engine where
  entities : List (JVal × String)
  intents : List IntentSchema

/-- The shared server state: `TCPServer.engine`, which starts as `None`. -/
structure ServerState where
  engine : Option Engine

/-- Python `key in v` for a JSON value: dict key membership, substring test
on strings, element membership on lists; `none` models the `TypeError`
raised on numbers, booleans and `None`. -/
def pyContains (v : JVal) (key : String) : Option Bool :=
  match v with
  | .obj l => some (l.lookup key).isSome
  | .str s => some (listInfix key.toList s.toList)
  | .arr l => some (l.any fun x => match x with | .str s => s == key | _ => false)
  | _ => none
where
  /-- Contiguous-sublist test on character lists (Python substring test). -/
  listInfix (needle hay : List Char) : Bool :=
    match hay with
    | [] => needle.isEmpty
    | _ :: t => needle.isPrefixOf hay || listInfix needle t

/-- Python `v[key]` for a string key: dict lookup; `none` models the
`TypeError` raised when `v` is not a dict (or a `KeyError` on a missing
key, which the server always guards with `in` first). -/
def pyGetItem (v : JVal) (key : String) : Option JVal :=
  match v with
  | .obj l => l.lookup key
  | _ => none

/-- Python iteration `for x in v`: list elements, characters of a string,
keys of a dict; `none` models the `TypeError` raised on numbers, booleans
and `None`. -/
def pyIter (v : JVal) : Option (List JVal) :=
  match v with
  | .arr l => some l
  | .str s => some (s.toList.map fun c => .str ⟨[c]⟩)
  | .obj l => some (l.map fun p => .str p.1)
  | _ => none

/-- Python `x > 0` for a JSON value `x`: numeric comparison (booleans are
integers in Python); `none` models the `TypeError` raised when comparing
`None`, strings, lists or dicts with an integer. -/
def pyGtZero (v : JVal) : Option Bool :=
  match v with
  | .num q => some (decide (0 < q))
  | .bool b => some b
  | _ => none

/-- `intent.get('confidence') > 0` (line 175 of the source): `.get` returns
the value or Python `None`; `none` models an uncaught exception (a non-dict
intent, or an incomparable confidence value). -/
def confCheck (intent : JVal) : Option Bool :=
  match intent with
  | .obj l => pyGtZero (match l.lookup "confidence" with | some x => x | none => .null)
  | _ => none

/-! ## JSON serialization (`json.dumps` with default separators) -/

/-- Escape a character inside a JSON string literal.  Faithful for the
quote and backslash; control characters do not occur in any message the
server serializes. -/
def jsonEscapeChar (c : Char) : String :=
  if c = '"' then "\\\"" else if c = '\\' then "\\\\" else String.mk [c]

/-- Serialize a string as a JSON string literal. -/
def jsonStr (s : String) : String :=
  "\"" ++ String.join (s.toList.map jsonEscapeChar) ++ "\""

/-- Serialize a JSON number.  Faithful for integral values, which are the
only numbers the server itself ever serializes. -/
def jsonNum (q : ℚ) : String :=
  if q.den = 1 then toString q.num else toString q.num ++ "/" ++ toString q.den

mutual
/-- `json.dumps` with CPython's default separators `", "` and `": "`. -/
def jsonDumps : JVal → String
  | .null => "null"
  | .bool true => "true"
  | .bool false => "false"
  | .num q => jsonNum q
  | .str s => jsonStr s
  | .arr l => "[" ++ jsonDumpsArr l ++ "]"
  | .obj l => "\x7b" ++ jsonDumpsObj l ++ "\x7d"

def jsonDumpsArr : List JVal → String
  | [] => ""
  | [v] => jsonDumps v
  | v :: rest => jsonDumps v ++ ", " ++ jsonDumpsArr rest

def jsonDumpsObj : List (String × JVal) → String
  | [] => ""
  | [(k, v)] => jsonStr k ++ ": " ++ jsonDumps v
  | (k, v) :: rest => jsonStr k ++ ": " ++ jsonDumps v ++ ", " ++ jsonDumpsObj rest
end

/-- `Handler.send_error`: serialize `{'status': 'error', 'error': error}`. -/
def send_error (error : String) : String :=
  jsonDumps (.obj [("status", .str "error"), ("error", .str error)])

/-- `Handler.send_success`: serialize `{'status': 'success'}`, with a
`data` entry added when data is present. -/
def send_success (data : Option JVal) : String :=
  jsonDumps (.obj (("status", .str "success") ::
    (match data with | some d => [("data", d)] | none => [])))

/-! ## Byte-stream reading (`Handler.read_bytes`) -/

/-- The `while len(data) < count` loop of `Handler.read_bytes`.  `input` is
the flattened sequence of bytes the peer sends before closing its side;
each `recv(count - len(data))` call returns at least one byte while any
remain, and the empty byte string forever once `input` is exhausted.  A
`none` result marks the case where the loop never terminates: `recv`
returns `b''` and `data` stops growing. -/
def read_bytes_loop (count : Nat) (data input : List Nat) :
    Option (List Nat × List Nat) :=
  if count ≤ data.length then some (data, input)
  else
    match input with
    | [] => none
    | x :: xs =>
      read_bytes_loop count (data ++ (x :: xs).take (count - data.length))
        ((x :: xs).drop (count - data.length))
termination_by input.length
decreasing_by
  simp only [List.length_drop]
  have : 0 < count - data.length := by omega
  simp [List.length_cons]
  omega

/-- `Handler.read_bytes(count)`: read exactly `count` bytes, or spin
forever (`none`) if the peer closes first. -/
def read_bytes_count (input : List Nat) (count : Nat) :
    Option (List Nat × List Nat) :=
  read_bytes_loop count [] input

/-- `Handler.read_bytes()` with no count: a single `recv(4096 * 4)`. -/
def read_bytes_all (input : List Nat) : List Nat :=
  input.take 16384

/-- `struct.unpack('>I', ...)`: big-endian byte concatenation. -/
def beNat (bs : List Nat) : Nat :=
  bs.foldl (fun a b => a * 256 + b) 0

/-! ## Strict UTF-8 decoding (`bytes.decode()`) -/

/-- Strict CPython UTF-8 decoding to a list of code points; `none` models
a raised `UnicodeDecodeError` (invalid lead/continuation byte, overlong
form, surrogate, out-of-range value, or truncated sequence). -/
def utf8DecodeCp : List Nat → Option (List Nat)
  | [] => some []
  | b :: bs =>
    if b ≤ 127 then (utf8DecodeCp bs).map (b :: ·)
    else if 194 ≤ b ∧ b ≤ 223 then
      match bs with
      | b1 :: bs' =>
        if 128 ≤ b1 ∧ b1 ≤ 191 then
          (utf8DecodeCp bs').map (((b - 192) * 64 + (b1 - 128)) :: ·)
        else none
      | [] => none
    else if 224 ≤ b ∧ b ≤ 239 then
      match bs with
      | b1 :: b2 :: bs' =>
        if (if b = 224 then 160 ≤ b1 ∧ b1 ≤ 191
            else if b = 237 then 128 ≤ b1 ∧ b1 ≤ 159
            else 128 ≤ b1 ∧ b1 ≤ 191) ∧ 128 ≤ b2 ∧ b2 ≤ 191 then
          (utf8DecodeCp bs').map
            (((b - 224) * 4096 + (b1 - 128) * 64 + (b2 - 128)) :: ·)
        else none
      | _ => none
    else if 240 ≤ b ∧ b ≤ 244 then
      match bs with
      | b1 :: b2 :: b3 :: bs' =>
        if (if b = 240 then 144 ≤ b1 ∧ b1 ≤ 191
            else if b = 244 then 128 ≤ b1 ∧ b1 ≤ 143
            else 128 ≤ b1 ∧ b1 ≤ 191) ∧ 128 ≤ b2 ∧ b2 ≤ 191 ∧
            128 ≤ b3 ∧ b3 ≤ 191 then
          (utf8DecodeCp bs').map
            (((b - 240) * 262144 + (b1 - 128) * 4096 + (b2 - 128) * 64 +
              (b3 - 128)) :: ·)
        else none
      | _ => none
    else none

/-- Reassemble decoded code points into a string (`Char.ofNat` is faithful
on the scalar values `utf8DecodeCp` produces). -/
def cpsToString (cps : List Nat) : String :=
  ⟨cps.map Char.ofNat⟩

/-! ## Legacy text protocol (`Handler.parse_legacy_message`) -/

/-- Python `str.split(sep)` for a one-character separator. -/
def splitChar (sep : Char) : List Char → List (List Char)
  | [] => [[]]
  | c :: cs =>
    let r := splitChar sep cs
    if c = sep then [] :: r
    else
      match r with
      | h :: t => (c :: h) :: t
      | [] => [[c]]

/-- `str.split` lifted back to strings. -/
def pySplit (s : String) (sep : Char) : List String :=
  (splitChar sep s.toList).map (fun l => ⟨l⟩)

/-- Result of `Handler.parse_legacy_message`: a message dict, `None`
(unrecognized prefix or fewer than 3 train segments), or an uncaught
`IndexError` on the empty string (never reached from `handle`). -/
inductive PlmResult where
  | msg : JVal → PlmResult
  | nomsg : PlmResult
  | err : PlmResult

/-- `Handler.parse_legacy_message` on the decoded message text. -/
def parse_legacy_message (message : String) : PlmResult :=
  match message.toList with
  | [] => .err
  | c :: _ =>
    if c = 't' then
      match (splitChar '|' (message.toList.drop 2)).map (fun l => (⟨l⟩ : String)) with
      | p0 :: p1 :: p2 :: _ =>
        .msg (.obj [("command", .str "train"),
          ("data", .obj [
            ("keywords", .arr ((pySplit p0 ',').map .str)),
            ("types", .arr ((pySplit p1 ',').map .str)),
            ("locations", .arr ((pySplit p2 ',').map .str))])])
      | _ => .nomsg
    else if c = 'q' then
      .msg (.obj [("command", .str "query"), ("data", .str (⟨message.toList.drop 2⟩ : String))])
    else .nomsg

/-! ## Engine gateway (`Handler.train`, `Handler.query`) -/

/-- `engine.register_entity(value, entity_type)`: the engine records the
registration. -/
def register_entity (e : Engine) (v : JVal) (ty : String) : Engine :=
  { e with entities := e.entities ++ [(v, ty)] }

/-- A `for`-loop of `register_entity` calls over one list. -/
def registerEntities (e : Engine) (vs : List JVal) (ty : String) : Engine :=
  vs.foldl (fun acc v => register_entity acc v ty) e

/-- Registration of an intent schema with the engine. -/
def registerIntent (e : Engine) (sc : IntentSchema) : Engine :=
  { e with intents := e.intents ++ [sc] }

/-- The one schema `Handler.train` builds:
`IntentBuilder('Intent').require('Keyword').optionally('Type').require('Location')`. -/
def theIntent : IntentSchema :=
  { name := "Intent", required := ["Keyword", "Location"], optional := ["Type"] }

/-- The engine produced by a completed `Handler.train(keywords, types,
locations)` body: a fresh engine, all registrations in order, then the
intent schema. -/
def buildEngine (kws tys los : List JVal) : Engine :=
  registerIntent
    (registerEntities
      (registerEntities
        (registerEntities { entities := [], intents := [] } kws "Keyword")
        tys "Type")
      los "Location")
    theIntent

/-- `Handler.train` (lines 135-161).  The lock is acquired, the shared
engine is unconditionally replaced by a fresh one, and the three lists are
iterated.  `Except.error s` marks an uncaught `TypeError` from iterating a
non-iterable value, raised after the engine was already replaced: `s` is
the shared state left behind (the `with` block releases the lock).  The
prior server state is not consulted at all. -/
def train (kw ty lo : JVal) : Except ServerState ServerState :=
  let e0 : Engine := { entities := [], intents := [] }
  match pyIter kw with
  | none => .error { engine := some e0 }
  | some kws =>
    let e1 := registerEntities e0 kws "Keyword"
    match pyIter ty with
    | none => .error { engine := some e1 }
    | some tys =>
      let e2 := registerEntities e1 tys "Type"
      match pyIter lo with
      | none => .error { engine := some e2 }
      | some los =>
        let e3 := registerEntities e2 los "Location"
        .ok { engine := some (registerIntent e3 theIntent) }

/-- The `for intent in ... determine_intent(command)` loop of
`Handler.query` (lines 172-177): the first intent whose
`.get('confidence') > 0`, if any; outer `none` marks an uncaught
exception from `confCheck`. -/
def queryLoop : List JVal → Option (Option JVal)
  | [] => some none
  | i :: rest =>
    match confCheck i with
    | none => none
    | some true => some (some i)
    | some false => queryLoop rest

/-- Result of `Handler.query`: the `(result, error)` pair plus the number
of times the engine lock was acquired, or an uncaught exception inside the
locked loop. -/
inductive QueryRes where
  | crash : QueryRes
  | res : Option JVal → Option String → Nat → QueryRes

/-- `Handler.query` (lines 163-182), with the engine's `determine_intent`
supplied as an oracle `di` (the adapt library is an external collaborator).
The untrained check happens before the lock is taken. -/
def query (di : Engine → JVal → List JVal) (s : ServerState) (command : JVal) :
    QueryRes :=
  match s.engine with
  | none => .res none (some "Intent parser was not trained.") 0
  | some e =>
    match queryLoop (di e command) with
    | none => .crash
    | some none => .res none (some "Failed to parse command.") 1
    | some (some i) => .res (some i) none 1

/-! ## Message decoding and dispatch (`Handler.handle`, lines 203-245) -/

/-- Classification of a decoded message by the checks of `Handler.handle`:
a decode error, a train request, a query request, or an uncaught Python
exception (e.g. a membership test or item access on a non-dict). -/
inductive DecodeOutcome where
  | err : String → DecodeOutcome
  | trainReq : JVal → JVal → JVal → DecodeOutcome
  | queryReq : JVal → DecodeOutcome
  | crash : DecodeOutcome

/-- The decode checks of `Handler.handle` (lines 203-221, 229, 244-245),
in source evaluation order: key-membership tests on the message, item
accesses, the command comparison, and for `train` the three key-membership
tests and item accesses on `data`. -/
def decodeMessage (m : JVal) : DecodeOutcome :=
  match pyContains m "command" with
  | none => .crash
  | some false => .err "Invalid message."
  | some true =>
  match pyContains m "data" with
  | none => .crash
  | some false => .err "Invalid message."
  | some true =>
  match pyGetItem m "data" with
  | none => .crash
  | some data =>
  match pyGetItem m "command" with
  | none => .crash
  | some cmd =>
  match cmd with
  | .str c =>
    if c = "train" then
      match pyContains data "keywords" with
      | none => .crash
      | some false => .err "Input data is invalid."
      | some true =>
      match pyContains data "types" with
      | none => .crash
      | some false => .err "Input data is invalid."
      | some true =>
      match pyContains data "locations" with
      | none => .crash
      | some false => .err "Input data is invalid."
      | some true =>
      match pyGetItem data "keywords", pyGetItem data "types",
            pyGetItem data "locations" with
      | some kv, some tv, some lv => .trainReq kv tv lv
      | _, _, _ => .crash
    else if c = "query" then .queryReq data
    else .err "Invalid command."
  | _ => .err "Invalid command."

/-- Outcome of handling one decoded message: bytes sent (if any), the
shared state afterwards, and how often the engine lock was acquired; or an
uncaught exception (`crash`), which also leaves a state behind. -/
inductive Outcome where
  | ok : Option String → ServerState → Nat → Outcome
  | crash : ServerState → Nat → Outcome

/-- The shared state an outcome leaves behind. -/
def outState : Outcome → ServerState
  | .ok _ s _ => s
  | .crash s _ => s

/-- `json.dumps(result)` of a possibly-`None` result. -/
def optJ : Option JVal → JVal
  | some v => v
  | none => .null

/-- The dispatch part of `Handler.handle` (lines 203-245): decode checks,
then train or query, then the protocol-appropriate response.  Decode
errors are sent only in framed mode and never touch the lock. -/
def dispatch (di : Engine → JVal → List JVal) (legacyMode : Bool) (m : JVal)
    (s : ServerState) : Outcome :=
  match decodeMessage m with
  | .crash => .crash s 0
  | .err e => .ok (if legacyMode then none else some (send_error e)) s 0
  | .trainReq kw ty lo =>
    match train kw ty lo with
    | .error sBad => .crash sBad 1
    | .ok s' => .ok (some (if legacyMode then "1" else send_success none)) s' 1
  | .queryReq d =>
    match query di s d with
    | .crash => .crash s 1
    | .res _ (some e) k =>
      .ok (some (if legacyMode then "-1" else send_error e)) s k
    | .res r none k =>
      .ok (some (if legacyMode then jsonDumps (optJ r)
                 else send_success (some (optJ r)))) s k

/-- The framed-mode tail of `Handler.handle` (lines 195-201 plus the
dispatch): `none` is a failed `json.loads(message.decode())`, answered
with `Failed to decode message.`. -/
def framedHandle (di : Engine → JVal → List JVal) (p : Option JVal)
    (s : ServerState) : Outcome :=
  match p with
  | none => .ok (some (send_error "Failed to decode message.")) s 0
  | some m => dispatch di false m s

/-- The legacy-mode tail of `Handler.handle` (lines 190-193 plus the
dispatch): a `None` parse is silently dropped. -/
def legacyHandle (di : Engine → JVal → List JVal) (message : String)
    (s : ServerState) : Outcome :=
  match parse_legacy_message message with
  | .err => .crash s 0
  | .nomsg => .ok none s 0
  | .msg m => dispatch di true m s

/-! ## Protocol detection and the full per-connection flow -/

/-- How the first two bytes route the connection (lines 188-189):
`initial.decode() in ['t:', 'q:']`.  The code points of `"t:"` are
`[116, 58]` and of `"q:"` are `[113, 58]`.  `crash` marks the
`UnicodeDecodeError` raised by `initial.decode()` on bytes that are not
valid UTF-8. -/
inductive DetectResult where
  | legacy : DetectResult
  | framed : DetectResult
  | crash : DetectResult
deriving DecidableEq

/-- Protocol detection on the first two bytes. -/
def detect (b0 b1 : Nat) : DetectResult :=
  match utf8DecodeCp [b0, b1] with
  | none => .crash
  | some cps => if cps = [116, 58] ∨ cps = [113, 58] then .legacy else .framed

/-- Outcome of `Handler.handle` on a whole connection: either the message
outcome, or the handler never terminates (`read_bytes` spinning on a
closed connection). -/
inductive HOutcome where
  | hang : HOutcome
  | out : Outcome → HOutcome

/-- `Handler.handle` (lines 184-245) over the flattened byte stream the
peer sends before closing.  `pj` is the `json.loads` oracle for the framed
payload (`none` = `ValueError`, caught and answered); the UTF-8 decoding
steps are modelled exactly. -/
def handle (pj : List Nat → Option JVal) (di : Engine → JVal → List JVal)
    (input : List Nat) (s : ServerState) : HOutcome :=
  match read_bytes_count input 2 with
  | none => .hang
  | some (initial, rest) =>
    match utf8DecodeCp initial with
    | none => .out (.crash s 0)
    | some cps =>
      if cps = [116, 58] ∨ cps = [113, 58] then
        match utf8DecodeCp (initial ++ read_bytes_all rest) with
        | none => .out (.crash s 0)
        | some cps' => .out (legacyHandle di (cpsToString cps') s)
      else
        match read_bytes_count rest 2 with
        | none => .hang
        | some (len2, rest2) =>
          match read_bytes_count rest2 (beNat (initial ++ len2)) with
          | none => .hang
          | some (payload, _) => .out (framedHandle di (pj payload) s)

/-- Modelled from the spec: the external adapt engine's
`DetermineIntent(text)` (spec section 6 and the testable properties of
section 8), which is not part of this repository.  A schema matches when,
for every required entity type, some registered entity of that type occurs
as a word of the query text; each matching schema yields one candidate
with confidence 1 (confidence must lie in `(0, 1]`). -/
def schemaMatches (e : Engine) (toks : List String) (sc : IntentSchema) : Bool :=
  sc.required.all fun r =>
    e.entities.any fun p =>
      p.2 == r && (match p.1 with | .str k => toks.contains k | _ => false)

/-- Modelled from the spec: the candidate sequence the engine returns for
a query, as intent dicts carrying a `confidence` entry (spec section 6).
Non-string query data yields no candidates. -/
def specDetermine (e : Engine) (d : JVal) : List JVal :=
  match d with
  | .str text =>
    (e.intents.filter (schemaMatches e (pySplit text ' '))).map
      (fun sc => .obj [("intent_type", .str sc.name), ("confidence", .num 1)])
  | _ => []

/-! ## Characterization lemmas for the byte layer -/

lemma read_bytes_count_eq (input : List Nat) (count : Nat) :
    read_bytes_count input count =
      if count ≤ input.length then some (input.take count, input.drop count)
      else none := by
  unfold read_bytes_count
  rw [read_bytes_loop.eq_def]
  by_cases hc : count ≤ ([] : List Nat).length
  · rw [if_pos hc]
    have h0 : count = 0 := by simpa using hc
    subst h0
    simp
  · rw [if_neg hc]
    cases input with
    | nil =>
      show (none : Option (List Nat × List Nat)) =
        if count ≤ List.length ([] : List Nat) then
          some (List.take count [], List.drop count []) else none
      rw [if_neg hc]
    | cons x xs =>
      show read_bytes_loop count
          ([] ++ List.take (count - List.length ([] : List Nat)) (x :: xs))
          (List.drop (count - List.length ([] : List Nat)) (x :: xs)) = _
      rw [read_bytes_loop.eq_def]
      by_cases hlen : count ≤ (x :: xs).length
      · rw [if_pos (show count ≤
          (([] : List Nat) ++
            List.take (count - List.length ([] : List Nat)) (x :: xs)).length by
            simp at hlen ⊢; omega)]
        rw [if_pos hlen]
        simp
      · rw [if_neg (show ¬ count ≤
          (([] : List Nat) ++
            List.take (count - List.length ([] : List Nat)) (x :: xs)).length by
            simp at hlen ⊢; omega)]
        have hdrop : List.drop (count - List.length ([] : List Nat)) (x :: xs) = [] := by
          simp at hlen ⊢; omega
        rw [hdrop, if_neg hlen]

lemma utf8DecodeCp_single (b : Nat) :
    utf8DecodeCp [b] = if b ≤ 127 then some [b] else none := by
  show (if b ≤ 127 then (utf8DecodeCp []).map (b :: ·)
        else if 194 ≤ b ∧ b ≤ 223 then none
        else if 224 ≤ b ∧ b ≤ 239 then none
        else if 240 ≤ b ∧ b ≤ 244 then none
        else none) = _
  by_cases h : b ≤ 127
  · rw [if_pos h, if_pos h]; rfl
  · rw [if_neg h, if_neg h]
    split_ifs <;> rfl

lemma utf8DecodeCp_two (b0 b1 : Nat) :
    utf8DecodeCp [b0, b1] =
      if b0 ≤ 127 then (if b1 ≤ 127 then some [b0, b1] else none)
      else if 194 ≤ b0 ∧ b0 ≤ 223 ∧ 128 ≤ b1 ∧ b1 ≤ 191 then
        some [(b0 - 192) * 64 + (b1 - 128)]
      else none := by
  show (if b0 ≤ 127 then (utf8DecodeCp [b1]).map (b0 :: ·)
        else if 194 ≤ b0 ∧ b0 ≤ 223 then
          (if 128 ≤ b1 ∧ b1 ≤ 191 then
            (utf8DecodeCp []).map (((b0 - 192) * 64 + (b1 - 128)) :: ·)
          else none)
        else if 224 ≤ b0 ∧ b0 ≤ 239 then none
        else if 240 ≤ b0 ∧ b0 ≤ 244 then none
        else none) = _
  by_cases h0 : b0 ≤ 127
  · rw [if_pos h0, if_pos h0, utf8DecodeCp_single b1]
    by_cases h1 : b1 ≤ 127
    · rw [if_pos h1, if_pos h1]; rfl
    · rw [if_neg h1, if_neg h1]; rfl
  · rw [if_neg h0, if_neg h0]
    by_cases h2 : 194 ≤ b0 ∧ b0 ≤ 223
    · rw [if_pos h2]
      by_cases h3 : 128 ≤ b1 ∧ b1 ≤ 191
      · rw [if_pos h3, if_pos ⟨h2.1, h2.2, h3.1, h3.2⟩]; rfl
      · rw [if_neg h3,
            if_neg (by tauto : ¬ (194 ≤ b0 ∧ b0 ≤ 223 ∧ 128 ≤ b1 ∧ b1 ≤ 191))]
    · rw [if_neg h2,
          if_neg (by tauto : ¬ (194 ≤ b0 ∧ b0 ≤ 223 ∧ 128 ≤ b1 ∧ b1 ≤ 191))]
      split_ifs <;> rfl

/-- Closed form of protocol detection over the first two bytes. -/
lemma detect_eq (b0 b1 : Nat) :
    detect b0 b1 =
      if b0 ≤ 127 ∧ b1 ≤ 127 then
        (if (b0 = 116 ∧ b1 = 58) ∨ (b0 = 113 ∧ b1 = 58) then .legacy else .framed)
      else if 194 ≤ b0 ∧ b0 ≤ 223 ∧ 128 ≤ b1 ∧ b1 ≤ 191 then .framed
      else .crash := by
  unfold detect
  rw [utf8DecodeCp_two]
  by_cases h0 : b0 ≤ 127
  · by_cases h1 : b1 ≤ 127
    · rw [if_pos h0, if_pos h1, if_pos ⟨h0, h1⟩]
      show (if ([b0, b1] : List Nat) = [116, 58] ∨ ([b0, b1] : List Nat) = [113, 58]
            then DetectResult.legacy else .framed) = _
      by_cases hp : (b0 = 116 ∧ b1 = 58) ∨ (b0 = 113 ∧ b1 = 58)
      · rw [if_pos hp,
            if_pos (show ([b0, b1] : List Nat) = [116, 58] ∨ ([b0, b1] : List Nat) = [113, 58] by
              rcases hp with ⟨h, h'⟩ | ⟨h, h'⟩ <;> (subst h; subst h'; simp))]
      · rw [if_neg hp, if_neg (show ¬ (([b0, b1] : List Nat) = [116, 58] ∨
              ([b0, b1] : List Nat) = [113, 58]) by simpa using hp)]
    · rw [if_pos h0, if_neg h1]
      show DetectResult.crash = _
      rw [if_neg (by tauto : ¬ (b0 ≤ 127 ∧ b1 ≤ 127)),
          if_neg (by omega : ¬ (194 ≤ b0 ∧ b0 ≤ 223 ∧ 128 ≤ b1 ∧ b1 ≤ 191))]
  · rw [if_neg h0]
    by_cases h2 : 194 ≤ b0 ∧ b0 ≤ 223 ∧ 128 ≤ b1 ∧ b1 ≤ 191
    · rw [if_pos h2]
      show (if ([(b0 - 192) * 64 + (b1 - 128)] : List Nat) = [116, 58] ∨
              ([(b0 - 192) * 64 + (b1 - 128)] : List Nat) = [113, 58]
            then DetectResult.legacy else .framed) = _
      have hcond : ¬ (([(b0 - 192) * 64 + (b1 - 128)] : List Nat) = [116, 58] ∨
          ([(b0 - 192) * 64 + (b1 - 128)] : List Nat) = [113, 58]) := by simp
      rw [if_neg hcond, if_neg (by tauto : ¬ (b0 ≤ 127 ∧ b1 ≤ 127)), if_pos h2]
    · rw [if_neg h2]
      show DetectResult.crash = _
      rw [if_neg (by tauto : ¬ (b0 ≤ 127 ∧ b1 ≤ 127)), if_neg h2]

/-- C1, counterexample: the claim routes every non-`"t:"`/`"q:"` 2-byte
prefix to the Framed decoder, but the bytes `0xFF 0xFF` — which begin a
valid 4-byte big-endian length prefix — make `initial.decode()` raise a
`UnicodeDecodeError`, so the connection is handled as neither Legacy nor
Framed. -/
theorem c1_counterexample :
    detect 255 255 = DetectResult.crash ∧ DetectResult.crash ≠ DetectResult.framed :=
  ⟨rfl, by decide⟩

/-- C1 (amended): a connection whose first 2 bytes are exactly `"t:"`
(bytes 116, 58) or `"q:"` (bytes 113, 58) is handled as Legacy; any other
initial 2-byte sequence that is valid UTF-8 is handled as Framed, with
those 2 bytes consumed as the first half of the 4-byte big-endian length
prefix; a 2-byte sequence that is not valid UTF-8 raises an uncaught
`UnicodeDecodeError` and the connection is handled as neither, with no
response. -/
theorem c1_theorem (b0 b1 : Nat) :
    (detect b0 b1 = .legacy ↔ ((b0 = 116 ∧ b1 = 58) ∨ (b0 = 113 ∧ b1 = 58)))
    ∧ ((utf8DecodeCp [b0, b1]).isSome → detect b0 b1 ≠ .legacy →
        detect b0 b1 = .framed)
    ∧ (utf8DecodeCp [b0, b1] = none → detect b0 b1 = .crash)
    ∧ (∀ (c0 c1 : Nat) (rest : List Nat) pj di s, detect b0 b1 = .framed →
        handle pj di (b0 :: b1 :: c0 :: c1 :: rest) s =
          match read_bytes_count rest (beNat [b0, b1, c0, c1]) with
          | none => .hang
          | some (payload, _) => .out (framedHandle di (pj payload) s))
    ∧ (∀ (rest : List Nat) pj di s, detect b0 b1 = .legacy →
        handle pj di (b0 :: b1 :: rest) s =
          match utf8DecodeCp ([b0, b1] ++ read_bytes_all rest) with
          | none => .out (.crash s 0)
          | some cps' => .out (legacyHandle di (cpsToString cps') s)) := by
  refine ⟨?_, ?_, ?_, ?_, ?_⟩
  · rw [detect_eq]
    split_ifs with ha hb hc
    · exact iff_of_true rfl hb
    · exact iff_of_false (by decide) hb
    · exact iff_of_false (by decide) (by omega)
    · exact iff_of_false (by decide) (by omega)
  · intro hs hnl
    rw [detect_eq] at hnl ⊢
    rw [utf8DecodeCp_two] at hs
    split_ifs at hnl ⊢ with ha hb hc
    · exact absurd rfl hnl
    · rfl
    · rfl
    · exfalso
      by_cases h0 : b0 ≤ 127
      · have h1 : ¬ b1 ≤ 127 := fun h1 => ha ⟨h0, h1⟩
        rw [if_pos h0, if_neg h1] at hs
        simp at hs
      · rw [if_neg h0, if_neg hc] at hs
        simp at hs
  · intro hn
    rw [detect_eq]
    rw [utf8DecodeCp_two] at hn
    split_ifs with ha hb hc
    · rw [if_pos ha.1, if_pos ha.2] at hn; cases hn
    · rw [if_pos ha.1, if_pos ha.2] at hn; cases hn
    · rw [if_neg (by omega : ¬ b0 ≤ 127), if_pos hc] at hn; cases hn
    · rfl
  · intro c0 c1 rest pj di s hdet
    obtain ⟨cps, hcps, hnp⟩ : ∃ cps, utf8DecodeCp [b0, b1] = some cps ∧
        ¬ (cps = [116, 58] ∨ cps = [113, 58]) := by
      unfold detect at hdet
      cases hu : utf8DecodeCp [b0, b1] with
      | none =>
        rw [hu] at hdet
        have hdet' : DetectResult.crash = .framed := hdet
        cases hdet'
      | some cps =>
        rw [hu] at hdet
        have hdet' : (if cps = [116, 58] ∨ cps = [113, 58] then DetectResult.legacy
            else .framed) = .framed := hdet
        by_cases hp : cps = [116, 58] ∨ cps = [113, 58]
        · rw [if_pos hp] at hdet'; cases hdet'
        · exact ⟨cps, rfl, hp⟩
    have h2 : read_bytes_count (b0 :: b1 :: c0 :: c1 :: rest) 2 =
        some ([b0, b1], c0 :: c1 :: rest) := by
      rw [read_bytes_count_eq]; simp
    have h3 : read_bytes_count (c0 :: c1 :: rest) 2 = some ([c0, c1], rest) := by
      rw [read_bytes_count_eq]; simp
    unfold handle
    simp only [h2, h3, hcps, if_neg hnp]
    rfl
  · intro rest pj di s hdet
    obtain ⟨cps, hcps, hp⟩ : ∃ cps, utf8DecodeCp [b0, b1] = some cps ∧
        (cps = [116, 58] ∨ cps = [113, 58]) := by
      unfold detect at hdet
      cases hu : utf8DecodeCp [b0, b1] with
      | none =>
        rw [hu] at hdet
        have hdet' : DetectResult.crash = .legacy := hdet
        cases hdet'
      | some cps =>
        rw [hu] at hdet
        have hdet' : (if cps = [116, 58] ∨ cps = [113, 58] then DetectResult.legacy
            else .framed) = .legacy := hdet
        by_cases hp : cps = [116, 58] ∨ cps = [113, 58]
        · exact ⟨cps, rfl, hp⟩
        · rw [if_neg hp] at hdet'; cases hdet'
    have h2 : read_bytes_count (b0 :: b1 :: rest) 2 = some ([b0, b1], rest) := by
      rw [read_bytes_count_eq]; simp
    unfold handle
    simp only [h2, hcps, if_pos hp]

/-- C1, witness: the amended theorem evaluated at concrete inputs. -/
theorem c1_witness :
    detect 116 58 = DetectResult.legacy
    ∧ detect 0 0 = DetectResult.framed
    ∧ handle (fun _ => none) (fun _ _ => []) [0, 0, 0, 1, 65] ⟨none⟩ =
        .out (.ok (some (send_error "Failed to decode message.")) ⟨none⟩ 0) := by
  refine ⟨(c1_theorem 116 58).1.mpr (Or.inl ⟨rfl, rfl⟩), ?_, ?_⟩
  · refine (c1_theorem 0 0).2.1 (by rw [utf8DecodeCp_two]; simp) ?_
    intro h
    rcases (c1_theorem 0 0).1.mp h with ⟨h1, _⟩ | ⟨h1, _⟩ <;> cases h1
  · have h := (c1_theorem 0 0).2.2.2.1 0 1 [65] (fun _ => none) (fun _ _ => [])
      ⟨none⟩ (by rw [detect_eq]; simp)
    rw [h, read_bytes_count_eq]
    rfl

/-- C3: `Handler.read_bytes` busy-loops instead of abandoning the
connection when the peer disconnects early.  First conjunct: the peer
sends a single byte and closes before protocol detection; second
conjunct: a framed peer announces 5 payload bytes but closes after 2.
In both cases `recv` returns `b''` forever and the
`while len(data) < count` loop never exits, so the handler neither closes
silently nor responds — it spins. -/
theorem c3_theorem :
    handle (fun _ => none) (fun _ _ => []) [116] ⟨none⟩ = HOutcome.hang
    ∧ handle (fun _ => none) (fun _ _ => []) [0, 0, 0, 5, 1, 2] ⟨none⟩ =
        HOutcome.hang := by
  constructor
  · unfold handle
    have h : read_bytes_count [116] 2 = none := by
      rw [read_bytes_count_eq]; simp
    rw [h]
  · unfold handle
    simp only [read_bytes_count_eq]
    rfl

/-- C2, counterexample: the claim promises the handler never crashes
whatever the payload bytes are, but the payload `b"5"` parses to the JSON
number 5 and `'command' not in message` then raises an uncaught
`TypeError`, so the connection dies with no response. -/
theorem c2_counterexample :
    framedHandle (fun _ _ => []) (some (.num 5)) ⟨none⟩ =
      .crash ⟨none⟩ 0 := rfl

/-- C2 (amended): for every Framed connection whose payload either fails
to parse or parses to a JSON object (with, when the command is `train`, a
`data` value that is itself a JSON object), decoding yields a request or
sends exactly the matching structured error — `Failed to decode message.`
for a malformed payload, `Invalid message.` for a missing `command` or
`data`, `Invalid command.` for an unrecognized command,
`Input data is invalid.` for train data missing keywords/types/locations —
without crashing and without touching the engine state; payloads parsing
to non-object JSON values can raise an uncaught exception instead. -/
theorem c2_theorem (di : Engine → JVal → List JVal) (s : ServerState)
    (l d : List (String × JVal)) (c dv : JVal) :
    (framedHandle di none s =
      .ok (some (send_error "Failed to decode message.")) s 0)
    ∧ (l.lookup "command" = none ∨ l.lookup "data" = none →
        framedHandle di (some (.obj l)) s =
          .ok (some (send_error "Invalid message.")) s 0)
    ∧ (l.lookup "command" = some c → l.lookup "data" = some dv →
        c ≠ .str "train" → c ≠ .str "query" →
        framedHandle di (some (.obj l)) s =
          .ok (some (send_error "Invalid command.")) s 0)
    ∧ (l.lookup "command" = some (.str "train") → l.lookup "data" = some (.obj d) →
        (d.lookup "keywords" = none ∨ d.lookup "types" = none ∨
          d.lookup "locations" = none) →
        framedHandle di (some (.obj l)) s =
          .ok (some (send_error "Input data is invalid.")) s 0)
    ∧ (l.lookup "command" = some (.str "query") → l.lookup "data" = some dv →
        decodeMessage (.obj l) = .queryReq dv)
    ∧ (l.lookup "command" = some (.str "train") → l.lookup "data" = some (.obj d) →
        ∀ kv tv lv, d.lookup "keywords" = some kv → d.lookup "types" = some tv →
          d.lookup "locations" = some lv →
          decodeMessage (.obj l) = .trainReq kv tv lv)
    ∧ (l.lookup "command" = some c → l.lookup "data" = some dv →
        (c = .str "train" → ∃ d', dv = .obj d') →
        decodeMessage (.obj l) ≠ .crash) := by
  refine ⟨rfl, ?_, ?_, ?_, ?_, ?_, ?_⟩
  · intro h
    rcases h with h | h
    · unfold framedHandle dispatch decodeMessage
      simp [pyContains, h]
    · cases hcmd : (l.lookup "command") with
      | none =>
        unfold framedHandle dispatch decodeMessage
        simp [pyContains, hcmd]
      | some cv =>
        unfold framedHandle dispatch decodeMessage
        simp [pyContains, hcmd, h]
  · intro hc hd hnt hnq
    unfold framedHandle dispatch decodeMessage
    simp only [pyContains, hc, hd, Option.isSome_some, pyGetItem]
    cases c with
    | str cs =>
      have h1 : cs ≠ "train" := fun h => hnt (by rw [h])
      have h2 : cs ≠ "query" := fun h => hnq (by rw [h])
      simp [h1, h2]
    | null => rfl
    | bool b => rfl
    | num q => rfl
    | arr a => rfl
    | obj o => rfl
  · intro hc hd hmiss
    unfold framedHandle dispatch decodeMessage
    simp only [pyContains, hc, hd, Option.isSome_some, pyGetItem]
    rcases hmiss with h | h | h
    · simp [h]
    · cases hk : (d.lookup "keywords") <;> simp [hk, h]
    · cases hk : (d.lookup "keywords") <;> cases ht : (d.lookup "types") <;>
        simp [hk, ht, h]
  · intro hc hd
    unfold decodeMessage
    simp [pyContains, hc, hd, pyGetItem]
  · intro hc hd kv tv lv hk ht hl
    unfold decodeMessage
    simp [pyContains, hc, hd, pyGetItem, hk, ht, hl]
  · intro hc hd hobj
    unfold decodeMessage
    simp only [pyContains, hc, hd, Option.isSome_some, pyGetItem]
    cases c with
    | str cs =>
      by_cases h1 : cs = "train"
      · subst h1
        obtain ⟨d', hd'⟩ := hobj rfl
        subst hd'
        cases hk : (d'.lookup "keywords") <;>
          cases ht : (d'.lookup "types") <;>
          cases hl : (d'.lookup "locations") <;>
          simp [pyContains, hk, ht, hl]
      · by_cases h2 : cs = "query"
        · subst h2; simp
        · simp [h1, h2]
    | null => simp
    | bool b => simp
    | num q => simp
    | arr a => simp
    | obj o => simp

/-- C2, witness: the amended theorem at concrete payloads. -/
theorem c2_witness :
    framedHandle (fun _ _ => []) (some (.obj [])) ⟨none⟩ =
      .ok (some (send_error "Invalid message.")) ⟨none⟩ 0
    ∧ decodeMessage (.obj [("command", .str "query"), ("data", .str "hi")]) =
        .queryReq (.str "hi")
    ∧ framedHandle (fun _ _ => [])
        (some (.obj [("command", .str "train"), ("data", .obj [])])) ⟨none⟩ =
        .ok (some (send_error "Input data is invalid.")) ⟨none⟩ 0 := by
  refine ⟨?_, ?_, ?_⟩
  · exact (c2_theorem (fun _ _ => []) ⟨none⟩ [] [] .null .null).2.1 (Or.inl rfl)
  · exact (c2_theorem (fun _ _ => []) ⟨none⟩
      [("command", .str "query"), ("data", .str "hi")] [] (.str "query")
      (.str "hi")).2.2.2.2.1 rfl rfl
  · exact (c2_theorem (fun _ _ => []) ⟨none⟩
      [("command", .str "train"), ("data", .obj [])] [] .null .null).2.2.2.1
      rfl rfl (Or.inl rfl)

/-- C5: a query handled while the shared engine is still `None` responds
with the structured error `Intent parser was not trained.` in framed mode
(exact bytes included) and with the literal bytes `-1` in legacy mode, in
both cases leaving the state unchanged and never taking the lock. -/
theorem c5_theorem (di : Engine → JVal → List JVal) (m d : JVal)
    (s : ServerState) (hs : s.engine = none)
    (hd : decodeMessage m = .queryReq d) :
    dispatch di false m s =
      .ok (some (send_error "Intent parser was not trained.")) s 0
    ∧ dispatch di true m s = .ok (some "-1") s 0
    ∧ send_error "Intent parser was not trained." =
        "\x7b\"status\": \"error\", \"error\": \"Intent parser was not trained.\"\x7d" := by
  refine ⟨?_, ?_, rfl⟩ <;>
    (unfold dispatch query; simp only [hd, hs]; rfl)

/-- C5, witness: a framed query against the untrained server. -/
theorem c5_witness :
    dispatch (fun _ _ => []) false
      (.obj [("command", .str "query"), ("data", .str "x")]) ⟨none⟩ =
      .ok (some (send_error "Intent parser was not trained.")) ⟨none⟩ 0 :=
  (c5_theorem (fun _ _ => [])
    (.obj [("command", .str "query"), ("data", .str "x")]) (.str "x")
    ⟨none⟩ rfl rfl).1

/-- The `for` loop of `Handler.query` picks the first candidate whose
confidence check succeeds; with every candidate checkable it never
crashes. -/
lemma queryLoop_first (cs : List JVal) (hall : ∀ c ∈ cs, (confCheck c).isSome) :
    queryLoop cs ≠ none
    ∧ (queryLoop cs = some none ↔ ∀ c ∈ cs, confCheck c = some false)
    ∧ (∀ i, queryLoop cs = some (some i) ↔
        ∃ pre post, cs = pre ++ i :: post ∧ confCheck i = some true ∧
          ∀ j ∈ pre, confCheck j = some false) := by
  induction cs with
  | nil =>
    refine ⟨by simp [queryLoop], by simp [queryLoop], fun i => ?_⟩
    constructor
    · intro h; simp [queryLoop] at h
    · rintro ⟨pre, post, habs, -, -⟩; exact absurd habs (by simp)
  | cons c rest ih =>
    have hc := hall c (List.mem_cons_self c rest)
    have hrest : ∀ x ∈ rest, (confCheck x).isSome :=
      fun x hx => hall x (List.mem_cons_of_mem c hx)
    obtain ⟨ih0, ihn, ihs⟩ := ih hrest
    cases hcc : confCheck c with
    | none => rw [hcc] at hc; simp at hc
    | some b =>
      cases b with
      | true =>
        have hq : queryLoop (c :: rest) = some (some c) := by
          simp [queryLoop, hcc]
        refine ⟨by simp [hq], ?_, fun i => ?_⟩
        · rw [hq]
          refine iff_of_false (by simp) ?_
          intro hforall
          have := hforall c (List.mem_cons_self c rest)
          rw [hcc] at this; simp at this
        · rw [hq]
          constructor
          · intro h
            have hi : i = c := by simpa using h.symm
            subst hi
            exact ⟨[], rest, by simp, hcc, by simp⟩
          · rintro ⟨pre, post, heq, hi, hpre⟩
            cases pre with
            | nil =>
              simp at heq
              simp [heq.1]
            | cons p pre' =>
              simp at heq
              exfalso
              have hp := hpre p (List.mem_cons_self p pre')
              rw [← heq.1] at hp
              rw [hcc] at hp
              simp at hp
      | false =>
        have hq : queryLoop (c :: rest) = queryLoop rest := by
          simp [queryLoop, hcc]
        refine ⟨by rw [hq]; exact ih0, ?_, fun i => ?_⟩
        · rw [hq, ihn]
          constructor
          · intro h x hx
            rcases List.mem_cons.mp hx with hx | hx
            · subst hx; exact hcc
            · exact h x hx
          · intro h x hx
            exact h x (List.mem_cons_of_mem c hx)
        · rw [hq, ihs i]
          constructor
          · rintro ⟨pre, post, heq, hi, hpre⟩
            refine ⟨c :: pre, post, by simp [heq], hi, ?_⟩
            intro j hj
            rcases List.mem_cons.mp hj with hj | hj
            · subst hj; exact hcc
            · exact hpre j hj
          · rintro ⟨pre, post, heq, hi, hpre⟩
            cases pre with
            | nil =>
              simp at heq
              exfalso
              rw [heq.1] at hcc
              rw [hcc] at hi
              simp at hi
            | cons p pre' =>
              simp at heq
              exact ⟨pre', post, heq.2, hi, fun j hj =>
                hpre j (List.mem_cons_of_mem p hj)⟩

/-- `Handler.query` on a trained engine, unfolded over the candidate
loop. -/
lemma query_some (di : Engine → JVal → List JVal) (s : ServerState)
    (e : Engine) (d : JVal) (hs : s.engine = some e) :
    query di s d =
      match queryLoop (di e d) with
      | none => .crash
      | some none => .res none (some "Failed to parse command.") 1
      | some (some i) => .res (some i) none 1 := by
  unfold query
  rw [hs]

/-- C6: a query against a trained engine returns the first candidate of
the engine's candidate sequence whose confidence is strictly positive,
and fails with `Failed to parse command.` when no candidate qualifies
(provided every candidate's confidence supports the comparison, as adapt
candidates do). -/
theorem c6_theorem (di : Engine → JVal → List JVal) (s : ServerState)
    (e : Engine) (d : JVal) (hs : s.engine = some e)
    (hall : ∀ c ∈ di e d, (confCheck c).isSome) :
    ((∀ c ∈ di e d, confCheck c = some false) →
      query di s d = .res none (some "Failed to parse command.") 1)
    ∧ (∀ i, query di s d = .res (some i) none 1 ↔
        ∃ pre post, di e d = pre ++ i :: post ∧ confCheck i = some true ∧
          ∀ j ∈ pre, confCheck j = some false) := by
  obtain ⟨h0, h1, h2⟩ := queryLoop_first (di e d) hall
  constructor
  · intro hfail
    rw [query_some di s e d hs, h1.mpr hfail]
  · intro i
    rw [query_some di s e d hs]
    cases hql : queryLoop (di e d) with
    | none => exact absurd hql h0
    | some r =>
      cases r with
      | none =>
        refine iff_of_false (by simp) ?_
        intro hex
        have := (h2 i).mpr hex
        rw [hql] at this
        simp at this
      | some j =>
        constructor
        · intro h
          have hij : j = i := by simpa using h
          subst hij
          exact (h2 j).mp hql
        · intro hex
          have := (h2 i).mpr hex
          rw [hql] at this
          have hij : j = i := by simpa using this
          subst hij
          rfl

/-- C6, witness: a trained engine with one positive-confidence candidate,
and one with a zero-confidence candidate. -/
theorem c6_witness :
    query (fun _ _ => [.obj [("confidence", .num 1)]])
      ⟨some (buildEngine [] [] [])⟩ (.str "x") =
      .res (some (.obj [("confidence", .num 1)])) none 1
    ∧ query (fun _ _ => [.obj [("confidence", .num 0)]])
      ⟨some (buildEngine [] [] [])⟩ (.str "x") =
      .res none (some "Failed to parse command.") 1 := by
  constructor
  · exact ((c6_theorem (fun _ _ => [.obj [("confidence", .num 1)]])
      ⟨some (buildEngine [] [] [])⟩ (buildEngine [] [] []) (.str "x") rfl
      (by intro c hc; simp at hc; subst hc; rfl)).2
      (.obj [("confidence", .num 1)])).mpr
      ⟨[], [], rfl, rfl, by simp⟩
  · exact (c6_theorem (fun _ _ => [.obj [("confidence", .num 0)]])
      ⟨some (buildEngine [] [] [])⟩ (buildEngine [] [] []) (.str "x") rfl
      (by intro c hc; simp at hc; subst hc; rfl)).1
      (by intro c hc; simp at hc; subst hc; rfl)

/-- C7: the byte-level legacy responses: `1` for a successful train,
`-1` for any failed query, and the raw `json.dumps` of the classification
result — no status envelope — for a successful query. -/
theorem c7_theorem (di : Engine → JVal → List JVal) (m kw ty lo d : JVal)
    (s : ServerState) :
    (decodeMessage m = .trainReq kw ty lo → ∀ s', train kw ty lo = .ok s' →
      dispatch di true m s = .ok (some "1") s' 1)
    ∧ (decodeMessage m = .queryReq d →
        (∀ (r : Option JVal) e k, query di s d = .res r (some e) k →
          dispatch di true m s = .ok (some "-1") s k)
        ∧ (∀ r k, query di s d = .res (some r) none k →
          dispatch di true m s = .ok (some (jsonDumps r)) s k)) := by
  constructor
  · intro hd s' ht
    unfold dispatch
    simp only [hd, ht]
    rfl
  · intro hd
    constructor
    · intro r e k hq
      unfold dispatch
      simp only [hd, hq]
      rfl
    · intro r k hq
      unfold dispatch
      simp only [hd, hq]
      rfl

/-- C7, witness: the three legacy responses at concrete messages. -/
theorem c7_witness :
    dispatch (fun _ _ => []) true
      (.obj [("command", .str "train"),
        ("data", .obj [("keywords", .arr []), ("types", .arr []),
          ("locations", .arr [])])]) ⟨none⟩ =
      .ok (some "1") ⟨some (buildEngine [] [] [])⟩ 1
    ∧ dispatch (fun _ _ => []) true
      (.obj [("command", .str "query"), ("data", .str "x")]) ⟨none⟩ =
      .ok (some "-1") ⟨none⟩ 0
    ∧ dispatch (fun _ _ => [.obj [("confidence", .num 1)]]) true
      (.obj [("command", .str "query"), ("data", .str "x")])
      ⟨some (buildEngine [] [] [])⟩ =
      .ok (some (jsonDumps (.obj [("confidence", .num 1)])))
        ⟨some (buildEngine [] [] [])⟩ 1 := by
  refine ⟨?_, ?_, ?_⟩
  · exact (c7_theorem (fun _ _ => [])
      (.obj [("command", .str "train"),
        ("data", .obj [("keywords", .arr []), ("types", .arr []),
          ("locations", .arr [])])])
      (.arr []) (.arr []) (.arr []) .null
      ⟨none⟩).1 rfl ⟨some (buildEngine [] [] [])⟩ rfl
  · exact ((c7_theorem (fun _ _ => [])
      (.obj [("command", .str "query"), ("data", .str "x")])
      .null .null .null (.str "x")
      ⟨none⟩).2 rfl).1 none "Intent parser was not trained." 0 rfl
  · exact ((c7_theorem (fun _ _ => [.obj [("confidence", .num 1)]])
      (.obj [("command", .str "query"), ("data", .str "x")])
      .null .null .null (.str "x") ⟨some (buildEngine [] [] [])⟩).2 rfl).2
      (.obj [("confidence", .num 1)]) 1 rfl

/-- C8: a legacy train message with fewer than 3 pipe-separated segments
is a silent no-op: no response is sent, the shared state is unchanged,
and the engine lock is never acquired. -/
theorem c8_theorem (di : Engine → JVal → List JVal) (msg : String)
    (s : ServerState) (h0 : msg.toList.head? = some 't')
    (hlen : (splitChar '|' (msg.toList.drop 2)).length < 3) :
    legacyHandle di msg s = .ok none s 0 := by
  unfold legacyHandle parse_legacy_message
  cases hml : msg.toList with
  | nil => rw [hml] at h0; cases h0
  | cons c cs =>
    rw [hml] at h0 hlen
    have hc : c = 't' := by simpa using h0
    subst hc
    have hlen2 : (((splitChar '|' (List.drop 2 ('t' :: cs))).map
        (fun l => (⟨l⟩ : String))).length) < 3 := by
      simpa using hlen
    generalize hparts : (splitChar '|' (List.drop 2 ('t' :: cs))).map
        (fun l => (⟨l⟩ : String)) = parts at hlen2 ⊢
    rcases parts with _ | ⟨a, _ | ⟨b, _ | ⟨c', rest⟩⟩⟩
    · rfl
    · rfl
    · rfl
    · exfalso
      simp at hlen2
      omega

/-- C8, witness: the legacy message `t:a` has one segment and is
silently ignored. -/
theorem c8_witness :
    legacyHandle (fun _ _ => []) "t:a" ⟨some (buildEngine [] [] [])⟩ =
      .ok none ⟨some (buildEngine [] [] [])⟩ 0 :=
  c8_theorem (fun _ _ => []) "t:a" ⟨some (buildEngine [] [] [])⟩ rfl
    (by decide)

/-- C10: once the shared engine is non-`None` it stays non-`None` under
every dispatched message (train only ever installs a fresh engine, even
when it crashes mid-build), and a query reports
`Intent parser was not trained.` exactly when the engine is still
`None`. -/
theorem c10_theorem (di : Engine → JVal → List JVal) (lm : Bool) (m : JVal)
    (s : ServerState) (d : JVal) (hs : s.engine ≠ none) :
    (outState (dispatch di lm m s)).engine ≠ none
    ∧ (∀ s' : ServerState,
        query di s' d = .res none (some "Intent parser was not trained.") 0 ↔
          s'.engine = none) := by
  constructor
  · unfold dispatch
    cases hdm : decodeMessage m with
    | crash => simp [outState, hs]
    | err e => simp [outState, hs]
    | trainReq kw ty lo =>
      simp only [hdm]
      unfold train
      rcases hk : pyIter kw with _ | kws
      · simp [outState]
      · rcases ht : pyIter ty with _ | tys
        · simp [outState]
        · rcases hl : pyIter lo with _ | los
          · simp [outState]
          · simp [outState]
    | queryReq dd =>
      simp only [hdm]
      unfold query
      rcases he : s.engine with _ | e
      · exact absurd he hs
      · rcases hq : queryLoop (di e dd) with _ | r
        · simp [outState, hq, hs]
        · rcases r with _ | i <;> simp [outState, hq, hs]
  · intro s'
    constructor
    · intro h
      rcases he : s'.engine with _ | e
      · rfl
      · rw [query_some di s' e d he] at h
        exfalso
        rcases hq : queryLoop (di e d) with _ | r
        · rw [hq] at h; simp at h
        · rcases r with _ | i
          · rw [hq] at h; simp at h
          · rw [hq] at h; simp at h
    · intro h
      unfold query
      rw [h]

/-- C10, witness: the invariant at a trained state and the untrained
equivalence at the initial state. -/
theorem c10_witness :
    (outState (dispatch (fun _ _ => []) false (.obj [])
        ⟨some (buildEngine [] [] [])⟩)).engine ≠ none
    ∧ query (fun _ _ => []) (⟨none⟩ : ServerState) (.str "x") =
        .res none (some "Intent parser was not trained.") 0 := by
  refine ⟨(c10_theorem (fun _ _ => []) false (.obj [])
    ⟨some (buildEngine [] [] [])⟩ (.str "x") (by simp)).1, ?_⟩
  exact ((c10_theorem (fun _ _ => []) false (.obj [])
    ⟨some (buildEngine [] [] [])⟩ (.str "x") (by simp)).2 ⟨none⟩).mpr rfl

/-- C4: a successful train replaces the engine with a fresh model that
depends only on the request (the resulting state is the same whatever the
prior state was; training on lists builds exactly `buildEngine`), and —
with the engine's classification modelled from the spec — a query that
matched keyword `a` after training on `["a"]` no longer matches after
retraining on `["b"]`. -/
theorem c4_theorem (di : Engine → JVal → List JVal) (lm : Bool)
    (m kw ty lo : JVal) (s1 s2 : ServerState) :
    (decodeMessage m = .trainReq kw ty lo →
      outState (dispatch di lm m s1) = outState (dispatch di lm m s2))
    ∧ (∀ kws tys los : List JVal,
        train (.arr kws) (.arr tys) (.arr los) =
          .ok ⟨some (buildEngine kws tys los)⟩)
    ∧ query specDetermine ⟨some (buildEngine [.str "a"] [] [.str "x"])⟩
        (.str "a x") =
        .res (some (.obj [("intent_type", .str "Intent"),
          ("confidence", .num 1)])) none 1
    ∧ query specDetermine ⟨some (buildEngine [.str "b"] [] [.str "x"])⟩
        (.str "a x") =
        .res none (some "Failed to parse command.") 1 := by
  refine ⟨?_, ?_, rfl, rfl⟩
  · intro hd
    unfold dispatch
    simp only [hd]
  · intro kws tys los
    rfl

/-- C4, witness: state replacement is independent of the prior state at a
concrete train message. -/
theorem c4_witness :
    outState (dispatch (fun _ _ => []) false
      (.obj [("command", .str "train"),
        ("data", .obj [("keywords", .arr []), ("types", .arr []),
          ("locations", .arr [])])]) ⟨none⟩) =
    outState (dispatch (fun _ _ => []) false
      (.obj [("command", .str "train"),
        ("data", .obj [("keywords", .arr []), ("types", .arr []),
          ("locations", .arr [])])]) ⟨some (buildEngine [.str "z"] [] [])⟩) :=
  (c4_theorem (fun _ _ => []) false
    (.obj [("command", .str "train"),
      ("data", .obj [("keywords", .arr []), ("types", .arr []),
        ("locations", .arr [])])])
    (.arr []) (.arr []) (.arr []) ⟨none⟩
    ⟨some (buildEngine [.str "z"] [] [])⟩).1 rfl

/-! ## Concurrency model: threads sharing `server.engine_lock`

Every connection handler runs in its own thread (`ThreadingTCPServer`).
A train handler executes, in order: acquire the lock, replace the shared
engine with a fresh one, register its entities one `register_entity` call
at a time, register the intent schema, release the lock
(`Handler.train`, lines 143-161).  A query handler executes: read
`server.engine` without the lock (the `None` check, line 169), then
acquire the lock, read the engine to run `determine_intent` (line 174),
and release (lines 173-177).  `Step` is the interleaving semantics: any
thread may take its next action whenever the lock permits. -/

/-- The control state of one connection-handler thread.  Train states
carry the flattened list of `(value, entity_type)` registrations of the
request (`orig`) and, while registering, the remaining ones
(`pending`). -/
inductive TState where
  | tWait : List (JVal × String) → TState
  | tFresh : List (JVal × String) → TState
  | tReg : List (JVal × String) → List (JVal × String) → TState
  | tRel : TState
  | tDone : TState
  | qInit : TState
  | qWait : TState
  | qObs : TState
  | qRel : TState
  | qDone : TState

/-- States in which a thread holds the engine lock. -/
def inCritical : TState → Bool
  | .tFresh _ => true
  | .tReg _ _ => true
  | .tRel => true
  | .qObs => true
  | .qRel => true
  | _ => false

/-- The whole system: the thread states, the lock owner, the shared
engine and the log of engines observed by queries inside the lock. -/
structure Sys where
  threads : Nat → TState
  lock : Option Nat
  engine : Option Engine
  obs : List Engine

/-- One interleaving step.  `abortT` models the `TypeError` raised inside
the lock when a train request's `keywords`, `types` or `locations` value
is not iterable (e.g. a number): by then the shared engine has already
been replaced and partially registered, the `with` block releases the
lock, and the handler thread dies, leaving the partial engine behind.
The abort is allowed after any prefix of the registrations, which
over-approximates the three real abort points (before the keyword, type
and location groups), so every real abort is covered.  A query handler
that crashes while iterating candidates does so after the engine was read
under the lock, so `observeQ` followed by `releaseQ` already covers it. -/
inductive Step : Sys → Sys → Prop where
  | acquireT (s : Sys) (i : Nat) (o : List (JVal × String)) :
      s.threads i = .tWait o → s.lock = none →
      Step s ⟨Function.update s.threads i (.tFresh o), some i, s.engine, s.obs⟩
  | freshT (s : Sys) (i : Nat) (o : List (JVal × String)) :
      s.threads i = .tFresh o →
      Step s ⟨Function.update s.threads i (.tReg o o), s.lock,
        some ⟨[], []⟩, s.obs⟩
  | regT (s : Sys) (i : Nat) (o p : List (JVal × String)) (v : JVal)
      (ty : String) :
      s.threads i = .tReg o ((v, ty) :: p) →
      Step s ⟨Function.update s.threads i (.tReg o p), s.lock,
        s.engine.map (fun en => register_entity en v ty), s.obs⟩
  | intentT (s : Sys) (i : Nat) (o : List (JVal × String)) :
      s.threads i = .tReg o [] →
      Step s ⟨Function.update s.threads i .tRel, s.lock,
        s.engine.map (fun en => registerIntent en theIntent), s.obs⟩
  | abortT (s : Sys) (i : Nat) (o p : List (JVal × String)) :
      s.threads i = .tReg o p →
      Step s ⟨Function.update s.threads i .tDone, none, s.engine, s.obs⟩
  | releaseT (s : Sys) (i : Nat) :
      s.threads i = .tRel →
      Step s ⟨Function.update s.threads i .tDone, none, s.engine, s.obs⟩
  | qCheckNone (s : Sys) (i : Nat) :
      s.threads i = .qInit → s.engine = none →
      Step s ⟨Function.update s.threads i .qDone, s.lock, s.engine, s.obs⟩
  | qCheckSome (s : Sys) (i : Nat) (e : Engine) :
      s.threads i = .qInit → s.engine = some e →
      Step s ⟨Function.update s.threads i .qWait, s.lock, s.engine, s.obs⟩
  | acquireQ (s : Sys) (i : Nat) :
      s.threads i = .qWait → s.lock = none →
      Step s ⟨Function.update s.threads i .qObs, some i, s.engine, s.obs⟩
  | observeQ (s : Sys) (i : Nat) (e : Engine) :
      s.threads i = .qObs → s.engine = some e →
      Step s ⟨Function.update s.threads i .qRel, s.lock, s.engine,
        s.obs ++ [e]⟩
  | releaseQ (s : Sys) (i : Nat) :
      s.threads i = .qRel →
      Step s ⟨Function.update s.threads i .qDone, none, s.engine, s.obs⟩

/-- The flattened registration list of a train request, in the order
`Handler.train` performs them. -/
def flatEnts (kws tys los : List JVal) : List (JVal × String) :=
  kws.map (fun v => (v, "Keyword")) ++ tys.map (fun v => (v, "Type")) ++
    los.map (fun v => (v, "Location"))

/-- A registration list that comes from some train request. -/
def trainShaped (o : List (JVal × String)) : Prop :=
  ∃ kws tys los, o = flatEnts kws tys los

/-- What a query can observe under the lock: either the engine produced
by some completed train body, or the residue of a train whose body
raised a `TypeError` mid-registration — a prefix of its train-shaped
registration list, with no intent schema registered.  Never an engine a
train is still mutating. -/
def observedOk (e : Engine) : Prop :=
  (∃ kws tys los, e = buildEngine kws tys los) ∨
  (∃ done rest kws tys los, done ++ rest = flatEnts kws tys los ∧
    e = ⟨done, []⟩)

/-- Thread states only ever carry train-shaped registration lists. -/
def shapedT : TState → Prop
  | .tWait o => trainShaped o
  | .tFresh o => trainShaped o
  | .tReg o _ => trainShaped o
  | _ => True

/-- A thread at connection start: a train request about to be dispatched,
a query about to be dispatched, or an inert slot. -/
def InitThread (t : TState) : Prop :=
  (∃ kws tys los, t = .tWait (flatEnts kws tys los)) ∨ t = .qInit ∨
    t = .tDone ∨ t = .qDone

/-- The initial system: no lock held, untrained engine, nothing
observed. -/
def Init (s : Sys) : Prop :=
  (∀ i, InitThread (s.threads i)) ∧ s.lock = none ∧ s.engine = none ∧
    s.obs = []

lemma registerEntities_eq (vs : List JVal) (e : Engine) (ty : String) :
    registerEntities e vs ty =
      ⟨e.entities ++ vs.map (fun v => (v, ty)), e.intents⟩ := by
  induction vs generalizing e with
  | nil => simp [registerEntities]
  | cons v vs ih =>
    have h1 : registerEntities e (v :: vs) ty =
        registerEntities (register_entity e v ty) vs ty := rfl
    rw [h1, ih]
    simp [register_entity]

/-- A completed train body produces exactly the flattened registrations
plus the single intent schema. -/
lemma buildEngine_flat (kws tys los : List JVal) :
    buildEngine kws tys los = ⟨flatEnts kws tys los, [theIntent]⟩ := by
  unfold buildEngine flatEnts registerIntent
  rw [registerEntities_eq, registerEntities_eq, registerEntities_eq]
  simp

/-- The inductive invariant of the interleaving semantics. -/
structure SysInv (s : Sys) : Prop where
  lockIdx : ∀ i, inCritical (s.threads i) = true ↔ s.lock = some i
  shaped : ∀ i, shapedT (s.threads i)
  regState : ∀ i o p, s.threads i = .tReg o p →
    ∃ done, o = done ++ p ∧ s.engine = some ⟨done, []⟩
  complete : (∀ i o p, s.threads i ≠ .tReg o p) →
    s.engine = none ∨ ∃ e, s.engine = some e ∧ observedOk e
  obsOk : ∀ e ∈ s.obs, observedOk e

lemma inv_init (s : Sys) (h : Init s) : SysInv s := by
  obtain ⟨hth, hl, he, ho⟩ := h
  refine ⟨?_, ?_, ?_, ?_, ?_⟩
  · intro i
    rw [hl]
    refine iff_of_false ?_ (by simp)
    rcases hth i with ⟨k, t, l, hw⟩ | hw | hw | hw <;> rw [hw] <;> simp [inCritical]
  · intro i
    rcases hth i with ⟨k, t, l, hw⟩ | hw | hw | hw <;> rw [hw] <;>
      simp [shapedT, trainShaped]
  · intro i o p hreg
    rcases hth i with ⟨k, t, l, hw⟩ | hw | hw | hw <;> rw [hw] at hreg <;>
      cases hreg
  · intro _
    exact Or.inl he
  · intro e he'
    rw [ho] at he'
    cases he'

lemma lockIdx_update_holder (s : Sys) (i : Nat) (t : TState)
    (lockIdx : ∀ j, inCritical (s.threads j) = true ↔ s.lock = some j)
    (hli : s.lock = some i) (hcrit : inCritical t = true) :
    ∀ j, inCritical (Function.update s.threads i t j) = true ↔
      s.lock = some j := by
  intro j
  simp only [Function.update_apply]
  by_cases hj : j = i
  · subst hj; rw [if_pos rfl, hli]; exact iff_of_true hcrit rfl
  · rw [if_neg hj]; exact lockIdx j

lemma lockIdx_release (s : Sys) (i : Nat) (t : TState)
    (lockIdx : ∀ j, inCritical (s.threads j) = true ↔ s.lock = some j)
    (hli : s.lock = some i) (hncrit : inCritical t = false) :
    ∀ j, inCritical (Function.update s.threads i t j) = true ↔
      (none : Option Nat) = some j := by
  intro j
  simp only [Function.update_apply]
  by_cases hj : j = i
  · subst hj; rw [if_pos rfl]
    exact iff_of_false (by simp [hncrit]) (by simp)
  · rw [if_neg hj]
    refine iff_of_false ?_ (by simp)
    by_contra hcj
    have hlj := (lockIdx j).mp (by simpa using hcj)
    rw [hli] at hlj
    exact hj (Option.some.inj hlj).symm

lemma lockIdx_acquire (s : Sys) (i : Nat) (t : TState)
    (lockIdx : ∀ j, inCritical (s.threads j) = true ↔ s.lock = some j)
    (hl : s.lock = none) (hcrit : inCritical t = true) :
    ∀ j, inCritical (Function.update s.threads i t j) = true ↔
      (some i : Option Nat) = some j := by
  intro j
  simp only [Function.update_apply]
  by_cases hj : j = i
  · subst hj; rw [if_pos rfl]; exact iff_of_true hcrit rfl
  · rw [if_neg hj]
    refine iff_of_false ?_ (fun h => hj (Option.some.inj h).symm)
    by_contra hcj
    have hlj := (lockIdx j).mp (by simpa using hcj)
    rw [hl] at hlj
    cases hlj

lemma lockIdx_keep (s : Sys) (i : Nat) (t : TState)
    (lockIdx : ∀ j, inCritical (s.threads j) = true ↔ s.lock = some j)
    (hni : inCritical (s.threads i) = false) (hnt : inCritical t = false) :
    ∀ j, inCritical (Function.update s.threads i t j) = true ↔
      s.lock = some j := by
  intro j
  simp only [Function.update_apply]
  by_cases hj : j = i
  · subst hj; rw [if_pos rfl]
    refine iff_of_false (by simp [hnt]) ?_
    intro h
    have := (lockIdx j).mpr h
    rw [hni] at this
    cases this
  · rw [if_neg hj]; exact lockIdx j

lemma noReg_other (s : Sys) (i : Nat)
    (lockIdx : ∀ j, inCritical (s.threads j) = true ↔ s.lock = some j)
    (hli : s.lock = some i) :
    ∀ j o p, j ≠ i → s.threads j ≠ .tReg o p := by
  intro j o p hj hreg
  have hlj := (lockIdx j).mp (by rw [hreg]; rfl)
  rw [hli] at hlj
  exact hj (Option.some.inj hlj).symm

lemma noReg_of_unlocked (s : Sys)
    (lockIdx : ∀ j, inCritical (s.threads j) = true ↔ s.lock = some j)
    (hl : s.lock = none) :
    ∀ j o p, s.threads j ≠ .tReg o p := by
  intro j o p hreg
  have hlj := (lockIdx j).mp (by rw [hreg]; rfl)
  rw [hl] at hlj
  cases hlj

lemma shaped_update (s : Sys) (i : Nat) (t : TState)
    (shaped : ∀ j, shapedT (s.threads j)) (ht : shapedT t) :
    ∀ j, shapedT (Function.update s.threads i t j) := by
  intro j
  simp only [Function.update_apply]
  by_cases hj : j = i
  · subst hj; rw [if_pos rfl]; exact ht
  · rw [if_neg hj]; exact shaped j

lemma inv_step (s s' : Sys) (hinv : SysInv s) (hstep : Step s s') :
    SysInv s' := by
  obtain ⟨lockIdx, shaped, regState, complete, obsOk⟩ := hinv
  cases hstep with
  | acquireT i o hw hl =>
    refine ⟨lockIdx_acquire s i _ lockIdx hl rfl, ?_, ?_, ?_, obsOk⟩
    · refine shaped_update s i _ shaped ?_
      have hs := shaped i
      rw [hw] at hs
      exact hs
    · intro j o' p' hreg
      simp only [Function.update_apply] at hreg
      by_cases hj : j = i
      · rw [if_pos hj] at hreg; cases hreg
      · rw [if_neg hj] at hreg
        exact absurd hreg (noReg_of_unlocked s lockIdx hl j o' p')
    · intro _
      exact complete (noReg_of_unlocked s lockIdx hl)
  | freshT i o hw =>
    have hli : s.lock = some i := (lockIdx i).mp (by rw [hw]; rfl)
    refine ⟨lockIdx_update_holder s i _ lockIdx hli rfl, ?_, ?_, ?_, obsOk⟩
    · refine shaped_update s i _ shaped ?_
      have hs := shaped i
      rw [hw] at hs
      exact hs
    · intro j o' p' hreg
      simp only [Function.update_apply] at hreg
      by_cases hj : j = i
      · rw [if_pos hj] at hreg
        cases hreg
        exact ⟨[], by simp, rfl⟩
      · rw [if_neg hj] at hreg
        exact absurd hreg (noReg_other s i lockIdx hli j o' p' hj)
    · intro hnone
      exact absurd (show Function.update s.threads i (.tReg o o) i = .tReg o o
        by simp) (hnone i o o)
  | regT i o p v ty hw =>
    have hli : s.lock = some i := (lockIdx i).mp (by rw [hw]; rfl)
    obtain ⟨done, hdone, heng⟩ := regState i o ((v, ty) :: p) hw
    refine ⟨lockIdx_update_holder s i _ lockIdx hli rfl, ?_, ?_, ?_, obsOk⟩
    · refine shaped_update s i _ shaped ?_
      have hs := shaped i
      rw [hw] at hs
      exact hs
    · intro j o' p' hreg
      simp only [Function.update_apply] at hreg
      by_cases hj : j = i
      · rw [if_pos hj] at hreg
        cases hreg
        refine ⟨done ++ [(v, ty)], by rw [hdone]; simp, ?_⟩
        rw [heng]
        simp [register_entity]
      · rw [if_neg hj] at hreg
        exact absurd hreg (noReg_other s i lockIdx hli j o' p' hj)
    · intro hnone
      exact absurd (show Function.update s.threads i (.tReg o p) i = .tReg o p
        by simp) (hnone i o p)
  | intentT i o hw =>
    have hli : s.lock = some i := (lockIdx i).mp (by rw [hw]; rfl)
    obtain ⟨done, hdone, heng⟩ := regState i o [] hw
    have hdo : done = o := by simpa using hdone.symm
    subst hdo
    have hsh := shaped i
    rw [hw] at hsh
    obtain ⟨kws, tys, los, hflat⟩ := hsh
    have hbuild : (Option.map (fun en => registerIntent en theIntent) s.engine) =
        some (buildEngine kws tys los) := by
      rw [heng, buildEngine_flat]
      simp [registerIntent, hflat]
    refine ⟨lockIdx_update_holder s i _ lockIdx hli rfl, ?_, ?_, ?_, obsOk⟩
    · exact shaped_update s i _ shaped trivial
    · intro j o' p' hreg
      simp only [Function.update_apply] at hreg
      by_cases hj : j = i
      · rw [if_pos hj] at hreg; cases hreg
      · rw [if_neg hj] at hreg
        exact absurd hreg (noReg_other s i lockIdx hli j o' p' hj)
    · intro _
      exact Or.inr ⟨buildEngine kws tys los, hbuild,
        Or.inl ⟨kws, tys, los, rfl⟩⟩
  | abortT i o p hw =>
    have hli : s.lock = some i := (lockIdx i).mp (by rw [hw]; rfl)
    obtain ⟨done, hdone, heng⟩ := regState i o p hw
    have hsh := shaped i
    rw [hw] at hsh
    obtain ⟨kws, tys, los, hflat⟩ := hsh
    refine ⟨lockIdx_release s i _ lockIdx hli rfl, ?_, ?_, ?_, obsOk⟩
    · exact shaped_update s i _ shaped trivial
    · intro j o' p' hreg
      simp only [Function.update_apply] at hreg
      by_cases hj : j = i
      · rw [if_pos hj] at hreg; cases hreg
      · rw [if_neg hj] at hreg
        exact absurd hreg (noReg_other s i lockIdx hli j o' p' hj)
    · intro _
      refine Or.inr ⟨⟨done, []⟩, heng,
        Or.inr ⟨done, p, kws, tys, los, ?_, rfl⟩⟩
      rw [← hdone]
      exact hflat
  | releaseT i hw =>
    have hli : s.lock = some i := (lockIdx i).mp (by rw [hw]; rfl)
    have hnoreg : ∀ j o p, s.threads j ≠ .tReg o p := by
      intro j o p hreg
      by_cases hj : j = i
      · subst hj; rw [hw] at hreg; cases hreg
      · exact noReg_other s i lockIdx hli j o p hj hreg
    refine ⟨lockIdx_release s i _ lockIdx hli rfl, ?_, ?_, ?_, obsOk⟩
    · exact shaped_update s i _ shaped trivial
    · intro j o' p' hreg
      simp only [Function.update_apply] at hreg
      by_cases hj : j = i
      · rw [if_pos hj] at hreg; cases hreg
      · rw [if_neg hj] at hreg
        exact absurd hreg (hnoreg j o' p')
    · intro _
      exact complete hnoreg
  | qCheckNone i hw he =>
    have hni : inCritical (s.threads i) = false := by rw [hw]; rfl
    refine ⟨lockIdx_keep s i _ lockIdx hni rfl, ?_, ?_, ?_, obsOk⟩
    · exact shaped_update s i _ shaped trivial
    · intro j o' p' hreg
      simp only [Function.update_apply] at hreg
      by_cases hj : j = i
      · rw [if_pos hj] at hreg; cases hreg
      · rw [if_neg hj] at hreg
        exact regState j o' p' hreg
    · intro hnone
      refine complete ?_
      intro j o p hreg
      by_cases hj : j = i
      · subst hj; rw [hw] at hreg; cases hreg
      · exact hnone j o p (by simpa [Function.update_apply, hj] using hreg)
  | qCheckSome i e hw he =>
    have hni : inCritical (s.threads i) = false := by rw [hw]; rfl
    refine ⟨lockIdx_keep s i _ lockIdx hni rfl, ?_, ?_, ?_, obsOk⟩
    · exact shaped_update s i _ shaped trivial
    · intro j o' p' hreg
      simp only [Function.update_apply] at hreg
      by_cases hj : j = i
      · rw [if_pos hj] at hreg; cases hreg
      · rw [if_neg hj] at hreg
        exact regState j o' p' hreg
    · intro hnone
      refine complete ?_
      intro j o p hreg
      by_cases hj : j = i
      · subst hj; rw [hw] at hreg; cases hreg
      · exact hnone j o p (by simpa [Function.update_apply, hj] using hreg)
  | acquireQ i hw hl =>
    refine ⟨lockIdx_acquire s i _ lockIdx hl rfl, ?_, ?_, ?_, obsOk⟩
    · exact shaped_update s i _ shaped trivial
    · intro j o' p' hreg
      simp only [Function.update_apply] at hreg
      by_cases hj : j = i
      · rw [if_pos hj] at hreg; cases hreg
      · rw [if_neg hj] at hreg
        exact absurd hreg (noReg_of_unlocked s lockIdx hl j o' p')
    · intro _
      exact complete (noReg_of_unlocked s lockIdx hl)
  | observeQ i e hw he =>
    have hli : s.lock = some i := (lockIdx i).mp (by rw [hw]; rfl)
    have hnoreg : ∀ j o p, s.threads j ≠ .tReg o p := by
      intro j o p hreg
      by_cases hj : j = i
      · subst hj; rw [hw] at hreg; cases hreg
      · exact noReg_other s i lockIdx hli j o p hj hreg
    have hcompl : observedOk e := by
      rcases complete hnoreg with hn | ⟨e', he', hok⟩
      · rw [he] at hn; cases hn
      · rw [he] at he'
        rw [Option.some.inj he']
        exact hok
    refine ⟨lockIdx_update_holder s i _ lockIdx hli rfl, ?_, ?_, ?_, ?_⟩
    · exact shaped_update s i _ shaped trivial
    · intro j o' p' hreg
      simp only [Function.update_apply] at hreg
      by_cases hj : j = i
      · rw [if_pos hj] at hreg; cases hreg
      · rw [if_neg hj] at hreg
        exact absurd hreg (noReg_other s i lockIdx hli j o' p' hj)
    · intro _
      exact complete hnoreg
    · intro x hx
      rcases List.mem_append.mp hx with hx | hx
      · exact obsOk x hx
      · rw [List.mem_singleton.mp hx]
        exact hcompl
  | releaseQ i hw =>
    have hli : s.lock = some i := (lockIdx i).mp (by rw [hw]; rfl)
    have hnoreg : ∀ j o p, s.threads j ≠ .tReg o p := by
      intro j o p hreg
      by_cases hj : j = i
      · subst hj; rw [hw] at hreg; cases hreg
      · exact noReg_other s i lockIdx hli j o p hj hreg
    refine ⟨lockIdx_release s i _ lockIdx hli rfl, ?_, ?_, ?_, obsOk⟩
    · exact shaped_update s i _ shaped trivial
    · intro j o' p' hreg
      simp only [Function.update_apply] at hreg
      by_cases hj : j = i
      · rw [if_pos hj] at hreg; cases hreg
      · rw [if_neg hj] at hreg
        exact absurd hreg (hnoreg j o' p')
    · intro _
      exact complete hnoreg

/-- The registrations of the counterexample's train request
`{"command": "train", "data": {"keywords": ["a"], "types": 5,
"locations": []}}`: it passes every decode check (all three keys are
present), and its registration run stops after the keyword `a` because
`for t in 5` raises a `TypeError`. -/
def c9Ents : List (JVal × String) := flatEnts [JVal.str "a"] [] []

/-- The counterexample's initial system: thread 0 runs that train,
thread 1 runs a query, every other slot is inert. -/
def c9Start : Sys :=
  ⟨fun n => if n = 0 then .tWait c9Ents else if n = 1 then .qInit else .tDone,
    none, none, []⟩

/-- The partially built engine the aborting train leaves behind: the
keyword is registered, no intent schema is. -/
def c9Partial : Engine := ⟨[(JVal.str "a", "Keyword")], []⟩

/-- The state after the train aborts mid-registration and the query then
observes the leftover engine under the lock. -/
def c9End : Sys :=
  ⟨Function.update (Function.update (Function.update (Function.update
      (Function.update (Function.update (Function.update c9Start.threads
        0 (.tFresh c9Ents)) 0 (.tReg c9Ents c9Ents)) 0 (.tReg c9Ents []))
        0 .tDone) 1 .qWait) 1 .qObs) 1 .qRel,
    some 1, some c9Partial, [c9Partial]⟩

/-- C9, counterexample: a framed train whose `types` value is the number
5 passes decoding, replaces the shared engine, registers its keyword and
then dies of a `TypeError`, releasing the lock and leaving a partially
built engine with no intent schema; a later query observes exactly that
engine under the lock.  The observed engine equals the result of no
completed train body, so the claim that every query observes a model
produced by some completed train call — never a partially built one —
is false. -/
theorem c9_counterexample :
    Init c9Start
    ∧ Relation.ReflTransGen Step c9Start c9End
    ∧ c9End.obs = [c9Partial]
    ∧ ∀ kws tys los, c9Partial ≠ buildEngine kws tys los := by
  refine ⟨⟨?_, rfl, rfl, rfl⟩, ?_, rfl, ?_⟩
  · intro i
    by_cases h0 : i = 0
    · subst h0
      exact Or.inl ⟨[.str "a"], [], [], rfl⟩
    · by_cases h1 : i = 1
      · subst h1
        exact Or.inr (Or.inl rfl)
      · have ht : c9Start.threads i = .tDone := by
          simp [c9Start, h0, h1]
        rw [ht]
        exact Or.inr (Or.inr (Or.inl rfl))
  · refine Relation.ReflTransGen.head (Step.acquireT c9Start 0 c9Ents rfl rfl) ?_
    refine Relation.ReflTransGen.head (Step.freshT _ 0 c9Ents rfl) ?_
    refine Relation.ReflTransGen.head
      (Step.regT _ 0 c9Ents [] (.str "a") "Keyword" rfl) ?_
    refine Relation.ReflTransGen.head (Step.abortT _ 0 c9Ents [] rfl) ?_
    refine Relation.ReflTransGen.head (Step.qCheckSome _ 1 c9Partial rfl rfl) ?_
    refine Relation.ReflTransGen.head (Step.acquireQ _ 1 rfl rfl) ?_
    exact Relation.ReflTransGen.single (Step.observeQ _ 1 c9Partial rfl rfl)
  · intro kws tys los h
    rw [buildEngine_flat] at h
    have h2 := congrArg Engine.intents h
    simp [c9Partial] at h2

/-- C9 (amended): in every reachable state of the interleaving semantics,
mutual exclusion holds — at most one thread is ever inside a `Retrain` or
`Classify` critical section — and every engine a query observed inside
the lock is quiescent (`observedOk`): either the engine produced by some
completed train body, or the partially registered residue, with no intent
schema, left behind by a train whose body raised a `TypeError`
mid-registration; never an engine a train is still mutating under the
lock. -/
theorem c9_theorem (s0 s : Sys) (h0 : Init s0)
    (hr : Relation.ReflTransGen Step s0 s) :
    (∀ i j, inCritical (s.threads i) = true → inCritical (s.threads j) = true →
      i = j)
    ∧ (∀ e ∈ s.obs, observedOk e) := by
  have hinv : SysInv s := by
    induction hr with
    | refl => exact inv_init s0 h0
    | tail hsteps hstep ih => exact inv_step _ _ ih hstep
  refine ⟨?_, hinv.obsOk⟩
  intro i j hi hj
  have h1 := (hinv.lockIdx i).mp hi
  have h2 := (hinv.lockIdx j).mp hj
  rw [h1] at h2
  exact Option.some.inj h2

/-- C9, witness: the amended theorem applied to a concrete system — one
query thread against the untrained engine, stepped once — discharging the
initial-state and reachability hypotheses. -/
theorem c9_witness :
    (∀ i j,
      inCritical ((Sys.mk
        (Function.update (fun n => if n = 0 then TState.qInit else TState.tDone)
          0 TState.qDone) none none []).threads i) = true →
      inCritical ((Sys.mk
        (Function.update (fun n => if n = 0 then TState.qInit else TState.tDone)
          0 TState.qDone) none none []).threads j) = true → i = j)
    ∧ (∀ e ∈ (Sys.mk
        (Function.update (fun n => if n = 0 then TState.qInit else TState.tDone)
          0 TState.qDone) none none []).obs,
        observedOk e) :=
  c9_theorem
    (Sys.mk (fun n => if n = 0 then TState.qInit else TState.tDone) none none [])
    (Sys.mk
      (Function.update (fun n => if n = 0 then TState.qInit else TState.tDone)
        0 TState.qDone) none none [])
    ⟨fun i => by
      by_cases hi : i = 0
      · subst hi; exact Or.inr (Or.inl rfl)
      · simp only [if_neg hi]; exact Or.inr (Or.inr (Or.inl rfl)),
     rfl, rfl, rfl⟩
    (Relation.ReflTransGen.single
      (Step.qCheckNone
        (Sys.mk (fun n => if n = 0 then TState.qInit else TState.tDone)
          none none []) 0 rfl rfl))
